import Mathlib

/-!
Verification development for the per-worker execution driver of the
Pachyderm pipeline system (package `driver`, plus its testing mock).

Each section shallowly embeds one component of the Go source:
pure functions become Lean functions, filesystem and process effects
become explicit data (lists of directory entries, walk-entry lists,
event traces), and fallible Go code returns `Except`/`Option`.
Go `int`/`int32`/`int64` values are modelled as `Int`; `uint64` byte
offsets are modelled as `Nat` (wraparound at 2^64 is not modelled:
the totals involved are file sizes well below that bound).
-/

/- ### Mock driver (src/server/worker/driver/testing.go) -/

/-- Options for the mock driver.  Only the field relevant to worker-count
behaviour is modelled; the etcd key settings and the pipeline info play no
role in `GetExpectedNumWorkers`. -/
structure MockOptions where
  numWorkers : Int
  deriving DecidableEq

/-- Model of `NewMockDriver` (testing.go lines 42-55): the user options are
copied, and a configured `NumWorkers` of 0 is replaced by 1. -/
def newMockDriver (userOptions : MockOptions) : MockOptions :=
  if userOptions.numWorkers = 0 then { userOptions with numWorkers := 1 }
  else userOptions

/-- Model of `MockDriver.GetExpectedNumWorkers` (testing.go lines 115-117):
returns the configured worker count and a nil error (`none`). -/
def getExpectedNumWorkers (options : MockOptions) : Int × Option String :=
  (options.numWorkers, none)

/- ### unlinkData (part_000 lines 615-629) -/

/-- Model of `unlinkData`: the driver reads the entries of `inputDir`
(rather than the provided `inputs` list, which the source ignores) and
removes every entry whose name differs from the scratch-space marker.
The result is the list of entries of `inputDir` that remain afterwards.
The scratch marker constant `client.PPSScratchSpace` is defined outside
this repository, so it is taken as the parameter `scratchSpace`. -/
def unlinkData (inputs : List String) (scratchSpace : String)
    (entries : List String) : List String :=
  entries.filter (fun name => name == scratchSpace)

/- ### Ownership propagation in WithData (part_000 lines 449-458) -/

/-- A file under `inputDir` together with its owner ids. -/
structure OwnedFile where
  path : String
  uid : Int
  gid : Int
  deriving DecidableEq

/-- Model of the `filepath.Walk` over `inputDir` that runs `os.Chown` on
every visited file (part_000 lines 452-457). -/
def chownWalk (uid gid : Int) (files : List OwnedFile) : List OwnedFile :=
  files.map (fun f => { f with uid := uid, gid := gid })

/-- Contents of `inputDir` at the moment `WithData` invokes the user-code
callback `cb` (part_000 line 460): if the driver has a custom uid/gid
configured (both pointers non-nil), the chown walk has just run over every
file; otherwise the files are untouched. -/
def filesAtCallback (custom : Option (Int × Int)) (files : List OwnedFile) :
    List OwnedFile :=
  match custom with
  | some (u, g) => chownWalk u g files
  | none => files

/- ### User-code runners (part_000 lines 632-779) -/

/-- Outcome of launching and waiting on the user child process, abstracting
the effectful middle of `RunUserCode`/`RunUserErrorHandlingCode`. -/
inductive ProcOutcome where
  /-- the process terminated with the given exit status -/
  | exited (code : Int)
  /-- `cmd.WaitIO` returned an error whose message contains "broken pipe" -/
  | brokenPipe
  /-- the per-datum deadline fired; `common.IsDone(ctx)` is true -/
  | timedOut
  deriving DecidableEq

/-- Errors that the runners can return (a non-nil Go `error`). -/
inductive RunErr where
  /-- "invalid pipeline transform, no command specified" -/
  | noCommand
  /-- the context error returned when the deadline fired -/
  | ctxDeadline
  /-- "error cmd.WaitIO: ..." for a non-accepted non-zero exit -/
  | exitErr (code : Int)
  deriving DecidableEq

/-- A Go runtime panic (not an `error` return). -/
inductive GoPanic where
  /-- runtime error: index out of range -/
  | indexOutOfRange
  deriving DecidableEq

/-- Shared tail of both runners (part_000 lines 681-714 and 746-778): after
the process has been waited on, a fired deadline returns the context error,
broken-pipe errors are ignored, exit status 0 gives a nil error, and a
non-zero status is accepted exactly when the loop over
`Transform.AcceptReturnCode` finds an equal code. -/
def runWaitDecision (accept : List Int) : ProcOutcome → Option RunErr
  | ProcOutcome.timedOut => some RunErr.ctxDeadline
  | ProcOutcome.brokenPipe => none
  | ProcOutcome.exited code =>
      if code = 0 then none
      else if accept.any (fun rc => rc == code) then none
      else some (RunErr.exitErr code)

/-- Model of `RunUserCode` (part_000 lines 632-715): it first checks
`len(Transform.Cmd) == 0` and returns the "no command" error (lines
659-661); otherwise it runs the process and applies the exit decision.
The `Except GoPanic` layer records that this function never panics. -/
def runUserCode (cmd : List String) (accept : List Int) (outcome : ProcOutcome) :
    Except GoPanic (Option RunErr) :=
  if cmd.length = 0 then Except.ok (some RunErr.noCommand)
  else Except.ok (runWaitDecision accept outcome)

/-- Model of `RunUserErrorHandlingCode` (part_000 lines 718-779): unlike
`RunUserCode` it has no empty-command guard and immediately evaluates
`Transform.ErrCmd[0]` (line 729), which panics with an index-out-of-range
runtime error when `ErrCmd` is empty; otherwise the contract is the same
as `RunUserCode`. -/
def runUserErrorHandlingCode (errCmd : List String) (accept : List Int)
    (outcome : ProcOutcome) : Except GoPanic (Option RunErr) :=
  match errCmd with
  | [] => Except.error GoPanic.indexOutOfRange
  | _ :: _ => Except.ok (runWaitDecision accept outcome)

/- ### DeleteJob (part_000 lines 792-809) -/

/-- An etcd job entry as far as `DeleteJob` reads it: the job id used as
the collection key and the current `pps.JobState` (an int32). -/
structure EtcdJobInfo where
  jobID : String
  state : Int
  deriving DecidableEq

/-- Read of a Go `map[int32]int32` entry: a missing key reads as 0 (this
also covers the `JobCounts == nil` case, which the source replaces with a
fresh empty map before reading). -/
def jcGet (jc : List (Int × Int)) (k : Int) : Int :=
  match jc.find? (fun p => p.1 == k) with
  | some p => p.2
  | none => 0

/-- Write of a Go `map[int32]int32` entry. -/
def jcSet (jc : List (Int × Int)) (k v : Int) : List (Int × Int) :=
  (k, v) :: jc.filter (fun p => p.1 != k)

/-- Lookup of a job entry by id in the jobs collection. -/
def jobsGet (jobs : List (String × EtcdJobInfo)) (id : String) :
    Option EtcdJobInfo :=
  (jobs.find? (fun p => p.1 == id)).map (fun p => p.2)

/-- Model of `DeleteJob` (part_000 lines 795-809): inside the ambient
transaction, update the pipeline entry by decrementing the counter for the
job's state only when it is non-zero, then delete the job entry by its id.
The state is the pipeline's `JobCounts` map together with the jobs
collection. -/
def deleteJob (jobCounts : List (Int × Int)) (jobs : List (String × EtcdJobInfo))
    (jobPtr : EtcdJobInfo) : List (Int × Int) × List (String × EtcdJobInfo) :=
  let c := jcGet jobCounts jobPtr.state
  let jobCounts' := if c != 0 then jcSet jobCounts jobPtr.state (c - 1) else jobCounts
  (jobCounts', jobs.filter (fun p => p.1 != jobPtr.jobID))

/- ### Theorems -/

/-- Membership form of the accept-code loop. -/
theorem any_beq_iff_mem (accept : List Int) (code : Int) :
    accept.any (fun rc => rc == code) = true ↔ code ∈ accept := by
  constructor
  · intro h
    rcases List.any_eq_true.mp h with ⟨x, hx, hbeq⟩
    rcases beq_iff_eq.mp hbeq
    exact hx
  · intro h
    exact List.any_eq_true.mpr ⟨code, h, beq_iff_eq.mpr rfl⟩

/-- C10: MockDriver.GetExpectedNumWorkers never returns 0 and never errors:
NewMockDriver replaces a configured NumWorkers of 0 with 1 at construction,
so for every configured value n, GetExpectedNumWorkers returns n if n is
non-zero and 1 if n is 0. -/
theorem mockDriver_numWorkers (opts : MockOptions) :
    getExpectedNumWorkers (newMockDriver opts) =
      ((if opts.numWorkers = 0 then 1 else opts.numWorkers), none) ∧
    (getExpectedNumWorkers (newMockDriver opts)).1 ≠ 0 ∧
    (getExpectedNumWorkers (newMockDriver opts)).2 = none := by
  by_cases h : opts.numWorkers = 0 <;>
    simp [newMockDriver, getExpectedNumWorkers, h]

/-- Witness for `mockDriver_numWorkers` at the configured value 0. -/
theorem mockDriver_numWorkers_witness :
    getExpectedNumWorkers (newMockDriver ⟨0⟩) = (1, none) ∧
    (getExpectedNumWorkers (newMockDriver ⟨0⟩)).1 ≠ 0 := by
  have h := mockDriver_numWorkers ⟨0⟩
  exact ⟨by simpa using h.1, h.2.1⟩

/-- C9: for every input list and every state of inputDir, unlinkData removes
exactly the entries of inputDir whose name differs from the scratch-space
marker — including entries not named in the provided input list — and leaves
the scratch-space entry unchanged. -/
theorem unlinkData_spec (inputs inputs' : List String) (scratchSpace : String)
    (entries : List String) :
    (∀ e, e ∈ unlinkData inputs scratchSpace entries ↔
        (e ∈ entries ∧ e = scratchSpace)) ∧
    unlinkData inputs scratchSpace entries =
      unlinkData inputs' scratchSpace entries := by
  refine ⟨fun e => ?_, rfl⟩
  simp [unlinkData, List.mem_filter]

/-- Witness for `unlinkData_spec`: a directory holding two residual inputs
and the scratch marker keeps exactly the marker, for any inputs list. -/
theorem unlinkData_spec_witness :
    ("in1" ∈ unlinkData ["other"] "scratch" ["in1", "out", "scratch"] ↔
        ("in1" ∈ ["in1", "out", "scratch"] ∧ "in1" = "scratch")) ∧
    unlinkData ["other"] "scratch" ["in1", "out", "scratch"] =
      unlinkData [] "scratch" ["in1", "out", "scratch"] :=
  ⟨(unlinkData_spec ["other"] [] "scratch" ["in1", "out", "scratch"]).1 "in1",
   (unlinkData_spec ["other"] [] "scratch" ["in1", "out", "scratch"]).2⟩

/-- C5: if a custom uid and gid are configured on the driver, then for every
WithData invocation, at the moment the user-code callback is invoked every
file under inputDir is owned by that (uid, gid). -/
theorem filesAtCallback_owned (u g : Int) (files : List OwnedFile) :
    ∀ f ∈ filesAtCallback (some (u, g)) files, f.uid = u ∧ f.gid = g := by
  intro f hf
  rcases List.mem_map.mp hf with ⟨f₀, _, heq⟩
  rw [← heq]
  exact ⟨rfl, rfl⟩

/-- Witness for `filesAtCallback_owned` on a one-file input directory with
custom identity (4000, 4000). -/
theorem filesAtCallback_owned_witness :
    (OwnedFile.mk "/pfs/in/x" 4000 4000).uid = 4000 ∧
    (OwnedFile.mk "/pfs/in/x" 4000 4000).gid = 4000 :=
  filesAtCallback_owned 4000 4000 [⟨"/pfs/in/x", 0, 0⟩]
    ⟨"/pfs/in/x", 4000, 4000⟩ (by decide)

/-- C3: RunUserCode returns nil exactly when the user process exits with
code 0 or with a code listed in the pipeline's AcceptReturnCode; any other
non-zero exit yields a non-nil run error.  In particular with
AcceptReturnCode = [42], exit 42 yields nil and exit 43 yields a non-nil
error. -/
theorem runUserCode_exit_codes (cmd : List String) (accept : List Int)
    (code : Int) (h : cmd ≠ []) :
    (runUserCode cmd accept (ProcOutcome.exited code) = Except.ok none ↔
        (code = 0 ∨ code ∈ accept)) ∧
    runUserCode cmd [42] (ProcOutcome.exited 42) = Except.ok none ∧
    runUserCode cmd [42] (ProcOutcome.exited 43) =
      Except.ok (some (RunErr.exitErr 43)) := by
  have hlen : ¬ cmd.length = 0 := by
    simpa [List.length_eq_zero] using h
  refine ⟨?_, ?_, ?_⟩
  · constructor
    · intro hok
      simp only [runUserCode, if_neg hlen, runWaitDecision] at hok
      by_cases h0 : code = 0
      · exact Or.inl h0
      · rw [if_neg h0] at hok
        by_cases hacc : accept.any (fun rc => rc == code) = true
        · exact Or.inr ((any_beq_iff_mem accept code).mp hacc)
        · simp [hacc] at hok
    · intro hc
      simp only [runUserCode, if_neg hlen, runWaitDecision]
      rcases hc with h0 | hmem
      · simp [h0]
      · by_cases h0 : code = 0
        · simp [h0]
        · rw [if_neg h0, if_pos ((any_beq_iff_mem accept code).mpr hmem)]
  · simp [runUserCode, if_neg hlen, runWaitDecision, h]
  · simp [runUserCode, if_neg hlen, runWaitDecision, h]

/-- Witness for `runUserCode_exit_codes` with command ["cp"], an empty
accept list, and exit code 0. -/
theorem runUserCode_exit_codes_witness :
    (["cp"] : List String) ≠ [] ∧
    (runUserCode ["cp"] [] (ProcOutcome.exited 0) = Except.ok none ↔
        ((0 : Int) = 0 ∨ (0 : Int) ∈ ([] : List Int))) ∧
    runUserCode ["cp"] [42] (ProcOutcome.exited 42) = Except.ok none ∧
    runUserCode ["cp"] [42] (ProcOutcome.exited 43) =
      Except.ok (some (RunErr.exitErr 43)) :=
  ⟨by decide, runUserCode_exit_codes ["cp"] [] 0 (by decide)⟩

/-- C7: the claim says RunUserErrorHandlingCode has the same contract as
RunUserCode, in particular failing with a clear "no command" error on an
empty command array.  The code disagrees: with an empty ErrCmd it evaluates
ErrCmd[0] without a length guard and panics with an index-out-of-range
runtime error, while RunUserCode on an empty Cmd returns the "no command"
error.  This theorem evaluates both models at the empty command array. -/
theorem runUserErrorHandlingCode_empty_crashes :
    runUserErrorHandlingCode [] [] (ProcOutcome.exited 0) =
      Except.error GoPanic.indexOutOfRange ∧
    runUserCode [] [] (ProcOutcome.exited 0) =
      Except.ok (some RunErr.noCommand) :=
  ⟨rfl, rfl⟩

/-- Finding by one key is unaffected by filtering out a different key. -/
theorem find_filter_ne_key {α β : Type} (l : List (α × β)) (a b : α)
    [DecidableEq α] (h : a ≠ b) :
    (l.filter (fun p => p.1 != b)).find? (fun p => p.1 == a) =
      l.find? (fun p => p.1 == a) := by
  induction l with
  | nil => rfl
  | cons q t ih =>
    by_cases hqb : q.1 = b
    · have h1 : (q.1 != b) = false := by simp [hqb]
      have h2 : (q.1 == a) = false := by
        simp only [beq_eq_false_iff_ne]
        exact fun hh => h (hh ▸ hqb)
      simp [List.filter, List.find?, h1, h2, ih]
    · have h1 : (q.1 != b) = true := by simp [hqb]
      by_cases hqa : q.1 = a
      · have h2 : (q.1 == a) = true := by simp [hqa]
        simp [List.filter, List.find?, h1, h2]
      · have h2 : (q.1 == a) = false := by simp [hqa]
        simp [List.filter, List.find?, h1, h2, ih]

/-- Finding a key in a list from which that key was filtered out fails. -/
theorem find_filter_self_key {α β : Type} (l : List (α × β)) (a : α)
    [DecidableEq α] :
    (l.filter (fun p => p.1 != a)).find? (fun p => p.1 == a) = none := by
  induction l with
  | nil => rfl
  | cons q t ih =>
    by_cases hqa : q.1 = a
    · have h1 : (q.1 != a) = false := by simp [hqa]
      simp [List.filter, h1, ih]
    · have h1 : (q.1 != a) = true := by simp [hqa]
      have h2 : (q.1 == a) = false := by simp [hqa]
      simp [List.filter, List.find?, h1, h2, ih]

/-- Reading back the key just written. -/
theorem jcGet_jcSet_self (jc : List (Int × Int)) (k v : Int) :
    jcGet (jcSet jc k v) k = v := by
  simp [jcGet, jcSet, List.find?]

/-- Reading a different key after a write is unchanged. -/
theorem jcGet_jcSet_ne (jc : List (Int × Int)) (k k' v : Int) (h : k' ≠ k) :
    jcGet (jcSet jc k v) k' = jcGet jc k' := by
  have h2 : (k == k') = false := by
    simp only [beq_eq_false_iff_ne]
    exact fun hh => h hh.symm
  simp only [jcGet, jcSet, List.find?, h2]
  rw [find_filter_ne_key _ k' k h]

/-- C6: for every job entry and every pipeline counter state, DeleteJob
decrements the pipeline's counter for the job's current state only if that
counter is non-zero (it never becomes negative), never increments any
counter, and then deletes the job entry; deleting a job whose state counter
is already 0 leaves the counter at 0. -/
theorem deleteJob_spec (jc : List (Int × Int)) (jobs : List (String × EtcdJobInfo))
    (jobPtr : EtcdJobInfo) :
    (jcGet (deleteJob jc jobs jobPtr).1 jobPtr.state =
        (if jcGet jc jobPtr.state = 0 then 0 else jcGet jc jobPtr.state - 1)) ∧
    (∀ k, jcGet (deleteJob jc jobs jobPtr).1 k ≤ jcGet jc k) ∧
    (0 ≤ jcGet jc jobPtr.state → 0 ≤ jcGet (deleteJob jc jobs jobPtr).1 jobPtr.state) ∧
    jobsGet (deleteJob jc jobs jobPtr).2 jobPtr.jobID = none ∧
    (∀ id, id ≠ jobPtr.jobID →
        jobsGet (deleteJob jc jobs jobPtr).2 id = jobsGet jobs id) := by
  have hstate : jcGet (deleteJob jc jobs jobPtr).1 jobPtr.state =
      (if jcGet jc jobPtr.state = 0 then 0 else jcGet jc jobPtr.state - 1) := by
    by_cases hc : jcGet jc jobPtr.state = 0
    · simp [deleteJob, hc]
    · have hb : (jcGet jc jobPtr.state != 0) = true := by simp [hc]
      simp only [deleteJob, hb, if_true, if_neg hc]
      exact jcGet_jcSet_self jc jobPtr.state (jcGet jc jobPtr.state - 1)
  refine ⟨hstate, ?_, ?_, ?_, ?_⟩
  · intro k
    by_cases hk : k = jobPtr.state
    · rw [hk, hstate]
      by_cases hc : jcGet jc jobPtr.state = 0 <;> simp [hc] <;> omega
    · by_cases hc : jcGet jc jobPtr.state = 0
      · simp [deleteJob, hc]
      · have hb : (jcGet jc jobPtr.state != 0) = true := by simp [hc]
        simp only [deleteJob, hb, if_true]
        rw [jcGet_jcSet_ne jc jobPtr.state k _ hk]
  · intro hpos
    rw [hstate]
    by_cases hc : jcGet jc jobPtr.state = 0 <;> simp [hc] <;> omega
  · simp only [deleteJob, jobsGet]
    rw [find_filter_self_key]
    rfl
  · intro id hid
    simp only [deleteJob, jobsGet]
    rw [find_filter_ne_key _ id jobPtr.jobID hid]

/-- Witness for `deleteJob_spec`: pipeline counters with state 3 at count 2
and state 5 at count 0, two jobs, deleting the job "j1" in state 3. -/
theorem deleteJob_spec_witness :
    (0 : Int) ≤ jcGet [((3 : Int), (2 : Int)), (5, 0)] 3 ∧
    (0 : Int) ≤ jcGet (deleteJob [(3, 2), (5, 0)]
        [("j1", ⟨"j1", 3⟩), ("j2", ⟨"j2", 5⟩)] ⟨"j1", 3⟩).1 3 ∧
    jobsGet (deleteJob [(3, 2), (5, 0)]
        [("j1", ⟨"j1", 3⟩), ("j2", ⟨"j2", 5⟩)] ⟨"j1", 3⟩).2 "j2" =
      jobsGet [("j1", ⟨"j1", 3⟩), ("j2", ⟨"j2", 5⟩)] "j2" := by
  have h := deleteJob_spec [(3, 2), (5, 0)]
    [("j1", ⟨"j1", 3⟩), ("j2", ⟨"j2", 5⟩)] ⟨"j1", 3⟩
  exact ⟨by decide, h.2.2.1 (by decide), h.2.2.2.2 "j2" (by decide)⟩

/- ### WithData cleanup ordering and scratch teardown (part_000 lines 408-480) -/

/-- How `downloadData` (part_000 lines 482-550) ended.  On any failure it
returns the pair ("", err): the scratch path it may already have created is
not reported back to the caller. -/
inductive DownloadOutcome where
  /-- succeeded; `WithData` receives the scratch path -/
  | ok
  /-- failed after `os.MkdirAll` created the scratch directory (for example
  a `puller.Pull` or git-clone error); `WithData` receives dir = "" -/
  | failCreated
  /-- failed before anything was created; `WithData` receives dir = "" -/
  | failNotCreated
  deriving DecidableEq

/-- One execution scenario of `WithData`: which of its fallible steps
succeed.  Failures inside the deferred cleanups only affect the returned
error, not the order of the cleanups, so they are not parameters. -/
structure WDScenario where
  download : DownloadOutcome
  /-- `os.MkdirAll(d.inputDir, 0777)` (line 438) -/
  mkdirInputOk : Bool
  /-- `d.linkData(data, dir)` (line 441) -/
  linkOk : Bool
  /-- the user-code callback `cb(stats)` (line 460) -/
  cbOk : Bool
  /-- the explicit draining `puller.CleanUp()` (line 471) -/
  drainOk : Bool
  deriving DecidableEq

/-- Observable events of one `WithData` run, in execution order. -/
inductive WDEvent where
  /-- `downloadData` ran -/
  | downloadEv (outcome : DownloadOutcome)
  /-- `linkData` ran -/
  | linkEv
  /-- the chown `filepath.Walk` ran -/
  | chownEv
  /-- the user callback ran -/
  | callbackEv
  /-- `puller.CleanUp()` ran -/
  | cleanUpEv
  /-- `unlinkData` ran (leaves the scratch marker in place) -/
  | unlinkEv
  /-- `os.RemoveAll(dir)` ran; removing "" is a no-op -/
  | removeAllEv (dir : String)
  deriving DecidableEq

/-- The scratch path allocated for this datum,
`filepath.Join(inputDir, PPSScratchSpace, uuid)` (line 501). -/
def scratchPathC : String := "/pfs/.scratch/id"

/-- Result of a modelled `WithData` run: the event trace, whether the
scratch path still exists on disk after return, and whether an error was
returned. -/
structure WDResult where
  trace : List WDEvent
  scratchExists : Bool
  errored : Bool
  deriving DecidableEq

/-- Model of `WithData` (part_000 lines 408-480).  The two cleanups
registered right after `downloadData` (lines 422-434) and the
`unlinkData` cleanup registered after a successful `linkData` (lines
444-448) run in LIFO order on every return path:
`unlinkData` (if registered), then `puller.CleanUp`, then
`os.RemoveAll(dir)`.  Because `downloadData` returns dir = "" on failure,
the final `RemoveAll` only removes the scratch path in the success case. -/
def withDataModel (sc : WDScenario) : WDResult :=
  let scratchCreated := sc.download != DownloadOutcome.failNotCreated
  let dir : String := if sc.download = DownloadOutcome.ok then scratchPathC else ""
  -- body events, whether the unlinkData defer got registered, error flag
  let body : List WDEvent × Bool × Bool :=
    if sc.download != DownloadOutcome.ok then ([], false, true)
    else if !sc.mkdirInputOk then ([], false, true)
    else if !sc.linkOk then ([WDEvent.linkEv], false, true)
    else if !sc.cbOk then
      ([WDEvent.linkEv, WDEvent.chownEv, WDEvent.callbackEv], true, true)
    else if !sc.drainOk then
      ([WDEvent.linkEv, WDEvent.chownEv, WDEvent.callbackEv, WDEvent.cleanUpEv],
        true, true)
    else
      ([WDEvent.linkEv, WDEvent.chownEv, WDEvent.callbackEv, WDEvent.cleanUpEv],
        true, false)
  let deferred : List WDEvent :=
    (if body.2.1 then [WDEvent.unlinkEv] else []) ++
      [WDEvent.cleanUpEv, WDEvent.removeAllEv dir]
  { trace := WDEvent.downloadEv sc.download :: (body.1 ++ deferred),
    scratchExists := scratchCreated && !(dir == scratchPathC),
    errored := body.2.2 }

/-- Scan of a trace checking that every `RemoveAll` event is preceded by
some `puller.CleanUp` event; the flag records whether a CleanUp has been
seen so far. -/
def cleanUpSeenScan : Bool → List WDEvent → Bool
  | _, [] => true
  | seen, e :: rest =>
      match e with
      | WDEvent.cleanUpEv => cleanUpSeenScan true rest
      | WDEvent.removeAllEv _ => seen && cleanUpSeenScan seen rest
      | _ => cleanUpSeenScan seen rest

/-- Holds when the puller CleanUp is invoked before any directory removal. -/
def cleanUpPrecedesRemove (t : List WDEvent) : Bool := cleanUpSeenScan false t

/-- C2 evaluated on the code: in every scenario the puller CleanUp runs
before the `RemoveAll` (the claim's ordering conjunct holds), but in the
scenario where `downloadData` fails after creating the scratch directory
the scratch path still exists after `WithData` returns, because
`downloadData` returned dir = "" and `os.RemoveAll("")` removes nothing —
contradicting the claim's (and the source comment's) teardown guarantee. -/
theorem withData_cleanup_order_and_scratch_leak :
    (∀ sc : WDScenario, cleanUpPrecedesRemove (withDataModel sc).trace = true) ∧
    (withDataModel ⟨DownloadOutcome.failCreated, true, true, true, true⟩).scratchExists
        = true ∧
    (withDataModel ⟨DownloadOutcome.failCreated, true, true, true, true⟩).errored
        = true := by
  refine ⟨?_, rfl, rfl⟩
  rintro ⟨d, m, l, c, dr⟩
  cases d <;> cases m <;> cases l <;> cases c <;> cases dr <;> rfl

/- ### UploadOutput (part_000 lines 936-1155) -/

/-- A `pfs.BlockRef`: a block id with a half-open byte range. -/
structure BlockRef where
  block : String
  lower : Nat
  upper : Nat
  deriving DecidableEq

/-- A node put into the ordered hash-tree during the walk. -/
inductive TreeNode where
  /-- `tree.PutDir(relPath)` -/
  | dirNode (relPath : String)
  /-- `tree.PutFile(relPath, hash, size, node-with-blockRefs)` -/
  | fileNode (relPath : String) (hash : List Nat) (size : Nat)
      (blockRefs : List BlockRef)
  deriving DecidableEq

/-- One non-root entry visited by the `filepath.Walk` over the output
directory, in walk order.  `regular` covers every entry that reaches the
streaming upload path at part_000 lines 1082-1129 — plain files and also
symlinks whose target is outside the input directory, since `os.Open`
dereferences them; its content is the byte list the chunked read loop
streams.  `inherited` covers a file folded in from the input tree by the
symlink branch (lines 1007-1080): its hash, size and block references come
verbatim from the existing object metadata (a symlink to an input
directory contributes its inner dir/file entries here in walk order). -/
inductive WalkEntry where
  | dir (relPath : String)
  | fifo (relPath : String)
  | inherited (relPath : String) (hash : List Nat) (size : Nat)
      (blockRefs : List BlockRef)
  | regular (relPath : String) (content : List Nat)
  deriving DecidableEq

/-- Errors the modelled walk can produce.  Invalid-UTF-8 paths cannot be
represented (paths are Lean strings, which are valid unicode), and local
file reads always succeed in the model, so the FIFO rejection is the only
error source. -/
inductive UploadErr where
  /-- `errSpecialFile` (part_000 line 142): "cannot upload special file" -/
  | errSpecialFile
  deriving DecidableEq

/-- Mutable state of the walk: the running block offset, the
`stats.UploadBytes` accumulator, and the datum tree built so far. -/
structure UploadState where
  offset : Nat
  uploadBytes : Nat
  tree : List TreeNode
  deriving DecidableEq

/-- State at the root of the walk (part_000 lines 967-980): offset 0, no
bytes uploaded, a fresh ordered tree. -/
def initUploadState : UploadState := ⟨0, 0, []⟩

/-- Model of the walk callback body for one entry (part_000 lines 986-1129).
`hash` abstracts `pfs.NewHash` (an external SHA); `block` is the single
fresh block opened for this upload (line 958).  A directory is put as a dir
node; a named pipe aborts with `errSpecialFile` (lines 997-1004); an
inherited file is put with its existing block references; a regular file is
streamed to the block and put with the single range
[offset, offset + size), after which offset and stats.UploadBytes grow by
size (lines 1092-1128). -/
def uploadStep (hash : List Nat → List Nat) (block : String) (st : UploadState) :
    WalkEntry → Except UploadErr UploadState
  | WalkEntry.dir p =>
      Except.ok { st with tree := st.tree ++ [TreeNode.dirNode p] }
  | WalkEntry.fifo _ => Except.error UploadErr.errSpecialFile
  | WalkEntry.inherited p h sz refs =>
      Except.ok { st with tree := st.tree ++ [TreeNode.fileNode p h sz refs] }
  | WalkEntry.regular p content =>
      let size := content.length
      Except.ok
        { offset := st.offset + size,
          uploadBytes := st.uploadBytes + size,
          tree := st.tree ++ [TreeNode.fileNode p (hash content) size
            [{ block := block, lower := st.offset, upper := st.offset + size }]] }

/-- The walk over all entries: stops at the first error, exactly as
`filepath.Walk` aborts when the callback returns a non-nil error. -/
def uploadWalk (hash : List Nat → List Nat) (block : String) :
    List WalkEntry → UploadState → Except UploadErr UploadState
  | [], st => Except.ok st
  | e :: rest, st =>
      match uploadStep hash block st e with
      | Except.error er => Except.error er
      | Except.ok st' => uploadWalk hash block rest st'

/-- Overall outcome of `UploadOutput`: the walk result and the datum tree
written to the object store under the datum tag — the tag write happens
only after the whole walk succeeded (part_000 lines 1130-1154). -/
structure UploadOutcome where
  result : Except UploadErr UploadState
  tagged : Option (List TreeNode)

/-- Model of `UploadOutput` for a given fresh block and output-directory
walk: on walk failure the error propagates and no object is tagged; on
success the serialised datum tree is tagged. -/
def uploadOutput (hash : List Nat → List Nat) (block : String)
    (entries : List WalkEntry) : UploadOutcome :=
  match uploadWalk hash block entries initUploadState with
  | Except.error e => ⟨Except.error e, none⟩
  | Except.ok st => ⟨Except.ok st, some st.tree⟩

/-- Bytes a single entry contributes to the upload stream. -/
def regSize : WalkEntry → Nat
  | WalkEntry.regular _ content => content.length
  | _ => 0

/-- Total bytes streamed for a list of entries. -/
def regTotal (entries : List WalkEntry) : Nat := (entries.map regSize).sum

/-- Sum of the sizes of the regular files strictly before position i. -/
def regOffsetAt (entries : List WalkEntry) (i : Nat) : Nat :=
  regTotal (entries.take i)

/-- The tree nodes a successful walk appends, given the starting offset.
The fifo case is a placeholder: a fifo aborts the walk, so that position
never appears in a successful tree. -/
def buildNodes (hash : List Nat → List Nat) (block : String) (offset : Nat) :
    List WalkEntry → List TreeNode
  | [] => []
  | WalkEntry.dir p :: rest => TreeNode.dirNode p :: buildNodes hash block offset rest
  | WalkEntry.fifo p :: rest => TreeNode.dirNode p :: buildNodes hash block offset rest
  | WalkEntry.inherited p h sz refs :: rest =>
      TreeNode.fileNode p h sz refs :: buildNodes hash block offset rest
  | WalkEntry.regular p content :: rest =>
      TreeNode.fileNode p (hash content) content.length
          [{ block := block, lower := offset, upper := offset + content.length }] ::
        buildNodes hash block (offset + content.length) rest

/-- Offset contribution before position 0 is zero. -/
theorem regOffsetAt_zero (entries : List WalkEntry) : regOffsetAt entries 0 = 0 := by
  simp [regOffsetAt, regTotal]

/-- Unfolding of the running offset across a cons cell. -/
theorem regOffsetAt_cons_succ (e : WalkEntry) (rest : List WalkEntry) (i : Nat) :
    regOffsetAt (e :: rest) (i + 1) = regSize e + regOffsetAt rest i := by
  simp [regOffsetAt, regTotal]

/-- The running offset is monotone in the position. -/
theorem regOffsetAt_mono (entries : List WalkEntry) :
    ∀ i j, i ≤ j → regOffsetAt entries i ≤ regOffsetAt entries j := by
  induction entries with
  | nil => intro i j _; simp [regOffsetAt, regTotal]
  | cons e rest ih =>
    intro i j h
    cases i with
    | zero => rw [regOffsetAt_zero]; exact Nat.zero_le _
    | succ i' =>
      cases j with
      | zero => omega
      | succ j' =>
        rw [regOffsetAt_cons_succ, regOffsetAt_cons_succ]
        exact Nat.add_le_add_left (ih i' j' (Nat.le_of_succ_le_succ h)) _

/-- Stepping the running offset over the entry at position i. -/
theorem regOffsetAt_succ_of_getElem (entries : List WalkEntry) :
    ∀ (i : Nat) (e : WalkEntry), entries[i]? = some e →
      regOffsetAt entries (i + 1) = regOffsetAt entries i + regSize e := by
  induction entries with
  | nil => intro i e h; simp at h
  | cons f rest ih =>
    intro i e h
    cases i with
    | zero =>
      simp only [List.getElem?_cons_zero, Option.some.injEq] at h
      subst h
      rw [regOffsetAt_cons_succ, regOffsetAt_zero, regOffsetAt_zero]
      omega
    | succ i' =>
      simp only [List.getElem?_cons_succ] at h
      rw [regOffsetAt_cons_succ, regOffsetAt_cons_succ, ih i' e h]
      omega

/-- A successful walk adds `regTotal` to the offset and the byte counter and
appends exactly the `buildNodes` nodes to the tree. -/
theorem uploadWalk_ok (hash : List Nat → List Nat) (block : String) :
    ∀ (entries : List WalkEntry) (st st' : UploadState),
      uploadWalk hash block entries st = Except.ok st' →
      st'.offset = st.offset + regTotal entries ∧
      st'.uploadBytes = st.uploadBytes + regTotal entries ∧
      st'.tree = st.tree ++ buildNodes hash block st.offset entries := by
  intro entries
  induction entries with
  | nil =>
    intro st st' h
    simp only [uploadWalk, Except.ok.injEq] at h
    subst h
    simp [regTotal, buildNodes]
  | cons e rest ih =>
    intro st st' h
    cases e with
    | dir p =>
      simp only [uploadWalk, uploadStep] at h
      obtain ⟨h1, h2, h3⟩ := ih _ st' h
      refine ⟨?_, ?_, ?_⟩
      · simpa [regTotal, regSize] using h1
      · simpa [regTotal, regSize] using h2
      · simp only [h3, buildNodes]
        simp [List.append_assoc]
    | fifo p => simp [uploadWalk, uploadStep] at h
    | inherited p hsh sz refs =>
      simp only [uploadWalk, uploadStep] at h
      obtain ⟨h1, h2, h3⟩ := ih _ st' h
      refine ⟨?_, ?_, ?_⟩
      · simpa [regTotal, regSize] using h1
      · simpa [regTotal, regSize] using h2
      · simp only [h3, buildNodes]
        simp [List.append_assoc]
    | regular p content =>
      simp only [uploadWalk, uploadStep] at h
      obtain ⟨h1, h2, h3⟩ := ih _ st' h
      refine ⟨?_, ?_, ?_⟩
      · simp only [h1, regTotal, regSize, List.map_cons, List.sum_cons]
        omega
      · simp only [h2, regTotal, regSize, List.map_cons, List.sum_cons]
        omega
      · simp only [h3, buildNodes]
        simp [List.append_assoc]

/-- The successful tree has one node per walk entry. -/
theorem buildNodes_length (hash : List Nat → List Nat) (block : String) :
    ∀ (entries : List WalkEntry) (offset : Nat),
      (buildNodes hash block offset entries).length = entries.length := by
  intro entries
  induction entries with
  | nil => intro off; rfl
  | cons e rest ih => intro off; cases e <;> simp [buildNodes, ih]

/-- The node built for the regular entry at position i carries the single
block range starting at the accumulated offset of the regular entries
before it. -/
theorem buildNodes_getElem (hash : List Nat → List Nat) (block : String) :
    ∀ (entries : List WalkEntry) (off i : Nat) (p : String) (c : List Nat),
      entries[i]? = some (WalkEntry.regular p c) →
      (buildNodes hash block off entries)[i]? =
        some (TreeNode.fileNode p (hash c) c.length
          [{ block := block, lower := off + regOffsetAt entries i,
             upper := off + regOffsetAt entries i + c.length }]) := by
  intro entries
  induction entries with
  | nil => intro off i p c h; simp at h
  | cons e rest ih =>
    intro off i p c h
    cases i with
    | zero =>
      simp only [List.getElem?_cons_zero, Option.some.injEq] at h
      subst h
      simp [buildNodes, regOffsetAt_zero]
    | succ i' =>
      simp only [List.getElem?_cons_succ] at h
      cases e with
      | dir q =>
        simp only [buildNodes, List.getElem?_cons_succ, regOffsetAt_cons_succ,
          regSize, Nat.zero_add]
        exact ih off i' p c h
      | fifo q =>
        simp only [buildNodes, List.getElem?_cons_succ, regOffsetAt_cons_succ,
          regSize, Nat.zero_add]
        exact ih off i' p c h
      | inherited q hsh sz refs =>
        simp only [buildNodes, List.getElem?_cons_succ, regOffsetAt_cons_succ,
          regSize, Nat.zero_add]
        exact ih off i' p c h
      | regular q d =>
        simp only [buildNodes, List.getElem?_cons_succ, regOffsetAt_cons_succ,
          regSize]
        have hres := ih (off + d.length) i' p c h
        simpa [Nat.add_assoc] using hres

/-- A walk over entries containing a fifo fails with `errSpecialFile`. -/
theorem uploadWalk_fifo (hash : List Nat → List Nat) (block : String) :
    ∀ (entries : List WalkEntry) (st : UploadState) (p : String),
      WalkEntry.fifo p ∈ entries →
      uploadWalk hash block entries st = Except.error UploadErr.errSpecialFile := by
  intro entries
  induction entries with
  | nil => intro st p h; simp at h
  | cons e rest ih =>
    intro st p h
    cases e with
    | fifo q => simp [uploadWalk, uploadStep]
    | dir q =>
      have hmem : WalkEntry.fifo p ∈ rest := by
        rcases List.mem_cons.mp h with h1 | h2
        · exact absurd h1 (by simp)
        · exact h2
      simp [uploadWalk, uploadStep, ih _ p hmem]
    | inherited q hsh sz refs =>
      have hmem : WalkEntry.fifo p ∈ rest := by
        rcases List.mem_cons.mp h with h1 | h2
        · exact absurd h1 (by simp)
        · exact h2
      simp [uploadWalk, uploadStep, ih _ p hmem]
    | regular q d =>
      have hmem : WalkEntry.fifo p ∈ rest := by
        rcases List.mem_cons.mp h with h1 | h2
        · exact absurd h1 (by simp)
        · exact h2
      simp [uploadWalk, uploadStep, ih _ p hmem]

/-- C1: for every walk of the output directory by UploadOutput, every
regular (non-symlinked) file put into the datum tree is referenced by
exactly one block reference, whose block is the single fresh block opened
for this upload and whose byte range is [offset, offset+size) where offset
is the sum of the sizes of all regular files uploaded before it;
consequently the ranges of successive files are contiguous and disjoint,
and stats.UploadBytes is incremented by exactly size for each file. -/
theorem uploadOutput_regular_file_ranges (hash : List Nat → List Nat)
    (block : String) (entries : List WalkEntry) (st : UploadState)
    (h : (uploadOutput hash block entries).result = Except.ok st) :
    st.tree.length = entries.length ∧
    (∀ i p c, entries[i]? = some (WalkEntry.regular p c) →
        st.tree[i]? = some (TreeNode.fileNode p (hash c) c.length
          [{ block := block, lower := regOffsetAt entries i,
             upper := regOffsetAt entries i + c.length }])) ∧
    st.uploadBytes = regTotal entries ∧
    (∀ i j pi ci pj cj, i < j →
        entries[i]? = some (WalkEntry.regular pi ci) →
        entries[j]? = some (WalkEntry.regular pj cj) →
        regOffsetAt entries i + ci.length ≤ regOffsetAt entries j) := by
  have hwalk : uploadWalk hash block entries initUploadState = Except.ok st := by
    unfold uploadOutput at h
    cases hw : uploadWalk hash block entries initUploadState with
    | error e => rw [hw] at h; exact absurd h (by simp)
    | ok st0 =>
      rw [hw] at h
      simp only [Except.ok.injEq] at h
      exact congrArg Except.ok h
  obtain ⟨hoff, hub, htree⟩ := uploadWalk_ok hash block entries initUploadState st hwalk
  have htree' : st.tree = buildNodes hash block 0 entries := by
    simpa [initUploadState] using htree
  refine ⟨?_, ?_, ?_, ?_⟩
  · rw [htree', buildNodes_length]
  · intro i p c hget
    rw [htree']
    have hb := buildNodes_getElem hash block entries 0 i p c hget
    simpa using hb
  · simpa [initUploadState] using hub
  · intro i j pi ci pj cj hij hgi hgj
    have h1 : regOffsetAt entries i + ci.length = regOffsetAt entries (i + 1) := by
      rw [regOffsetAt_succ_of_getElem entries i _ hgi]
      simp [regSize]
    rw [h1]
    exact regOffsetAt_mono entries (i + 1) j hij

/-- Hash parameter used by the C1 witness (abstracting the external SHA). -/
def wHash : List Nat → List Nat := fun content => content

/-- Output-walk entries used by the C1 witness: a directory, a regular
file of 3 bytes, an inherited symlink fold-in, a second regular file. -/
def wEntries : List WalkEntry :=
  [WalkEntry.dir "sub", WalkEntry.regular "a" [10, 11, 12],
   WalkEntry.inherited "b" [9] 4 [⟨"B1", 0, 4⟩], WalkEntry.regular "sub/c" [7]]

/-- Final walk state expected for `wEntries`. -/
def wState : UploadState :=
  ⟨4, 4,
   [TreeNode.dirNode "sub",
    TreeNode.fileNode "a" [10, 11, 12] 3 [⟨"B", 0, 3⟩],
    TreeNode.fileNode "b" [9] 4 [⟨"B1", 0, 4⟩],
    TreeNode.fileNode "sub/c" [7] 1 [⟨"B", 3, 4⟩]]⟩

/-- Witness for `uploadOutput_regular_file_ranges` on `wEntries`. -/
theorem uploadOutput_regular_file_ranges_witness :
    (uploadOutput wHash "B" wEntries).result = Except.ok wState ∧
    (wState.tree.length = wEntries.length ∧
     (∀ i p c, wEntries[i]? = some (WalkEntry.regular p c) →
        wState.tree[i]? = some (TreeNode.fileNode p (wHash c) c.length
          [{ block := "B", lower := regOffsetAt wEntries i,
             upper := regOffsetAt wEntries i + c.length }])) ∧
     wState.uploadBytes = regTotal wEntries ∧
     (∀ i j pi ci pj cj, i < j →
        wEntries[i]? = some (WalkEntry.regular pi ci) →
        wEntries[j]? = some (WalkEntry.regular pj cj) →
        regOffsetAt wEntries i + ci.length ≤ regOffsetAt wEntries j)) :=
  ⟨rfl, uploadOutput_regular_file_ranges wHash "B" wEntries wState rfl⟩

/-- C4: if any entry under the output directory is a named pipe (FIFO),
UploadOutput returns the errSpecialFile error, and no datum tree is
committed: the object tagged with the datum tag is only written after the
whole walk succeeds. -/
theorem uploadOutput_fifo_rejected (hash : List Nat → List Nat) (block : String)
    (entries : List WalkEntry) (p : String) (h : WalkEntry.fifo p ∈ entries) :
    (uploadOutput hash block entries).result =
      Except.error UploadErr.errSpecialFile ∧
    (uploadOutput hash block entries).tagged = none := by
  have hw := uploadWalk_fifo hash block entries initUploadState p h
  simp [uploadOutput, hw]

/-- Witness for `uploadOutput_fifo_rejected`: an output directory holding a
subdirectory and the FIFO "p". -/
theorem uploadOutput_fifo_rejected_witness :
    (uploadOutput (fun c => c) "B" [WalkEntry.dir "d", WalkEntry.fifo "p"]).result =
      Except.error UploadErr.errSpecialFile ∧
    (uploadOutput (fun c => c) "B" [WalkEntry.dir "d", WalkEntry.fifo "p"]).tagged =
      none :=
  uploadOutput_fifo_rejected (fun c => c) "B"
    [WalkEntry.dir "d", WalkEntry.fifo "p"] "p" (by decide)

/- ### Identity resolver (part_000 lines 281-355) -/

/-- One line of /etc/passwd, already split on the colon: the fields the
source indexes are parts[0] (name), parts[1], parts[2] (uid), parts[3]
(gid), parts[4] (gecos, stored as User.Name), parts[5] (home). -/
structure PasswdLine where
  name : String
  pw : String
  uid : String
  gid : String
  gecos : String
  homeDir : String
  deriving DecidableEq

/-- One line of /etc/group, already split on the colon: parts[0] (name),
parts[1], parts[2] (gid). -/
structure GroupLine where
  name : String
  pw : String
  gid : String
  deriving DecidableEq

/-- The `os/user.User` fields the resolver fills in. -/
structure GoUser where
  username : String
  uid : String
  gid : String
  name : String
  homeDir : String
  deriving DecidableEq

/-- The `os/user.Group` fields `lookupGroup` fills in. -/
structure GoGroup where
  gid : String
  name : String
  deriving DecidableEq

/-- The user record built from a matching passwd line (part_000 lines
305-311). -/
def mkGoUser (line : PasswdLine) : GoUser :=
  { username := line.name, uid := line.uid, gid := line.gid,
    name := line.gecos, homeDir := line.homeDir }

/-- Model of `lookupGroup` (part_000 lines 334-355): scan /etc/group line
by line for a line whose name column equals the requested group. -/
def lookupGroupOn (group : String) : List GroupLine → Except String GoGroup
  | [] => Except.error ("group " ++ group ++ " not found")
  | line :: rest =>
      if line.name == group then Except.ok { gid := line.gid, name := line.name }
      else lookupGroupOn group rest

/-- Model of the scan of /etc/passwd in `lookupDockerUser` (part_000 lines
301-331): the first line matching on the name column or the uid column
wins; if a group part was supplied, a name-column match resolves it through
/etc/group while a uid-column match uses the group string directly as the
gid. -/
def lookupDockerUserOn (userArg userOrUID groupOrGID : String)
    (groups : List GroupLine) : List PasswdLine → Except String GoUser
  | [] => Except.error ("user " ++ userArg ++ " not found")
  | line :: rest =>
      if line.name == userOrUID || line.uid == userOrUID then
        if groupOrGID != "" then
          if line.name == userOrUID then
            match lookupGroupOn groupOrGID groups with
            | Except.error e => Except.error e
            | Except.ok g => Except.ok { mkGoUser line with gid := g.gid }
          else Except.ok { mkGoUser line with gid := groupOrGID }
        else Except.ok (mkGoUser line)
      else lookupDockerUserOn userArg userOrUID groupOrGID groups rest

/-- Splitter mirroring Go strings.Split(s, ":") on the character list. -/
def splitColonAux : List Char → List Char → List String
  | [], acc => [String.mk acc.reverse]
  | c :: rest, acc =>
      if c = ':' then String.mk acc.reverse :: splitColonAux rest []
      else splitColonAux rest (c :: acc)

/-- strings.Split(s, ":") as used at part_000 line 286. -/
def splitColon (s : String) : List String := splitColonAux s.toList []

/-- Model of `lookupDockerUser` (part_000 lines 285-332): split the user
spec on ":" into user-or-uid and optional group-or-gid, then scan the
passwd lines. -/
def lookupDockerUser (userArg : String) (passwd : List PasswdLine)
    (groups : List GroupLine) : Except String GoUser :=
  let userParts := splitColon userArg
  let userOrUID := userParts.headD ""
  let groupOrGID := userParts.getD 1 ""
  lookupDockerUserOn userArg userOrUID groupOrGID groups passwd

/-- C8 counterexample: the claim says that whenever the user part matches a
passwd line by name or by uid and the group part is numeric, the numeric
group is used directly as the gid with no /etc/group entry required.  For
the spec "alice:4000" matching the passwd line for alice by name, with an
empty /etc/group, the code instead scans /etc/group for a group named
"4000" and fails — it does not produce gid "4000". -/
theorem lookupDockerUser_numeric_group_counterexample :
    lookupDockerUser "alice:4000"
        [⟨"alice", "x", "1000", "1000", "Alice", "/home/alice"⟩] [] =
      Except.error ("group 4000 not found") := by
  rfl

/-- C8 amended: when a group part is supplied, the first matching passwd
line determines the gid as follows: a match on the name column resolves the
group (numeric or not) by scanning /etc/group by name, while a match on
the uid column only uses the group string directly as the gid. -/
theorem lookupDockerUserOn_group_resolution (userArg userOrUID groupOrGID : String)
    (groups : List GroupLine) (pre post : List PasswdLine) (line : PasswdLine)
    (hpre : ∀ l ∈ pre, l.name ≠ userOrUID ∧ l.uid ≠ userOrUID)
    (hmatch : line.name = userOrUID ∨ line.uid = userOrUID)
    (hgrp : groupOrGID ≠ "") :
    lookupDockerUserOn userArg userOrUID groupOrGID groups (pre ++ line :: post) =
      (if line.name = userOrUID then
        match lookupGroupOn groupOrGID groups with
        | Except.error e => Except.error e
        | Except.ok g => Except.ok { mkGoUser line with gid := g.gid }
      else Except.ok { mkGoUser line with gid := groupOrGID }) := by
  induction pre with
  | nil =>
    have hm : (line.name == userOrUID || line.uid == userOrUID) = true := by
      rcases hmatch with h1 | h1 <;> simp [h1]
    have hg : (groupOrGID != "") = true := by simp [hgrp]
    simp only [List.nil_append, lookupDockerUserOn, hm, if_true, hg]
    by_cases hn : line.name = userOrUID
    · simp [hn]
    · have hn2 : (line.name == userOrUID) = false := by simp [hn]
      simp [hn2, hn]
  | cons l pre' ih =>
    have hl := hpre l (List.mem_cons_self l pre')
    have hskip : (l.name == userOrUID || l.uid == userOrUID) = false := by
      simp [hl.1, hl.2]
    simp only [List.cons_append, lookupDockerUserOn, hskip, Bool.false_eq_true,
      if_false]
    exact ih (fun x hx => hpre x (List.mem_cons_of_mem l hx))

/-- Witness for `lookupDockerUserOn_group_resolution`: the spec "1000:4000"
matches the alice line by uid, so the numeric group 4000 becomes the gid
directly even though /etc/group is empty. -/
theorem lookupDockerUserOn_group_resolution_witness :
    lookupDockerUserOn "1000:4000" "1000" "4000" []
        [⟨"alice", "x", "1000", "100", "Alice", "/home/alice"⟩] =
      Except.ok ⟨"alice", "1000", "4000", "Alice", "/home/alice"⟩ := by
  have h := lookupDockerUserOn_group_resolution "1000:4000" "1000" "4000" [] [] []
    ⟨"alice", "x", "1000", "100", "Alice", "/home/alice"⟩
    (by intro l hl; simp at hl) (Or.inr rfl) (by decide)
  simpa [mkGoUser] using h
